import Mathlib

/-!
# Real-time facial emotion recognition: smoothing, gating and batch scoring

A shallow embedding of the decision logic of the `cv_final` sources
(`main.cpp`, `emotion_classifier.cpp`, `batch_test.cpp`, `config.hpp`) together with
theorems about it.

Conventions of the embedding

* `std::string` is `String`, `std::deque<std::string>` and `std::vector<...>` are `List`.
* The `int` counters of the sources are `Nat`: they only count elements of a container
  and are never decremented, so they stay inside `int` for every container shorter
  than `2^31`.
* Pixel and score values (`float`, `double`) are elements of a linearly ordered field,
  concretely `ℚ` or `ℝ`; comparisons are exact, arithmetic is unrounded.
* OpenCV and the ONNX network are not part of the sources.  The image operations and
  the network are fields of `Backend` and `AlignBackend`; `cv::minMaxLoc` is modelled
  separately.
* A C++ exception is a result `none` or `Except.error`.
* `std::unordered_map` does not fix the order in which its entries are visited.  The
  visiting order is an explicit argument (`keys`), constrained by `IterationOrder`.
-/

namespace CVFinal

/-! ## Definitions: temporal smoothing (`main.cpp`) -/

/-- The constant `const int SMOOTHING_WINDOW = 5;`. -/
def SMOOTHING_WINDOW : Nat := 5

/-- The table `freq` after `for (const auto& label : buffer) freq[label]++;`
(a missing key reads as `0`). -/
def buildFreq (buffer : List String) : String → Nat :=
  buffer.foldl (fun freq label => Function.update freq label (freq label + 1)) (fun _ => 0)

/-- One iteration of the loop `for (const auto& [label, count] : freq)`;
the state is `(majorityLabel, maxCount)`. -/
def scanStep (freq : String → Nat) (acc : String × Nat) (label : String) : String × Nat :=
  if freq label > acc.2 then (label, freq label) else acc

/-- The function `getSmoothedPrediction(buffer)`, where `keys` is the order in which the
unordered map `freq` is traversed. -/
def getSmoothedPrediction (keys : List String) (buffer : List String) : String :=
  (keys.foldl (scanStep (buildFreq buffer)) ("", 0)).1

/-- The list `keys` is a possible traversal of the frequency table of `buffer`:
every label of the buffer exactly once. -/
def IterationOrder (keys buffer : List String) : Prop :=
  keys.Nodup ∧ (∀ l ∈ keys, l ∈ buffer) ∧ ∀ l ∈ buffer, l ∈ keys

instance (keys buffer : List String) : Decidable (IterationOrder keys buffer) := by
  unfold IterationOrder
  infer_instance

/-- State of the single left-to-right frequency scan of the specification:
running counts, current winner, current maximum count. -/
structure ScanState where
  counts : String → Nat
  best : String
  bestCount : Nat

/-- One step of the specification's scan: count the label, and let it win when its
count exceeds the current maximum. -/
def specScanStep (st : ScanState) (label : String) : ScanState :=
  let c := st.counts label + 1
  let counts := Function.update st.counts label c
  if c > st.bestCount then ⟨counts, label, c⟩ else ⟨counts, st.best, st.bestCount⟩

/-- The tie-break rule in the words of the specification: "first label to reach the
current maximum count wins", a single left-to-right frequency scan of the buffer. -/
def firstToReachMax (buffer : List String) : String :=
  (buffer.foldl specScanStep ⟨fun _ => 0, "", 0⟩).best

/-- The buffer update of the driver:
`predictionBuffer.push_back(emotion); if (size() > SMOOTHING_WINDOW) pop_front();` -/
def pushLabel (predictionBuffer : List String) (emotion : String) : List String :=
  let pushed := predictionBuffer ++ [emotion]
  if pushed.length > SMOOTHING_WINDOW then pushed.tail else pushed

/-- The driver's own gate, `if (confidence < 0.2f) emotion = "Uncertain";`. -/
def driverGate (res : String × ℚ) : String :=
  if res.2 < 1 / 5 then "Uncertain" else res.1

/-- The body of `for (const auto& face : faces)` after classification: `res` is the
classifier's `(emotion, confidence)` for this face, `iter` gives the traversal order of
the frequency table of a buffer.  Returns the new `predictionBuffer` and `smoothed`. -/
def faceStep (iter : List String → List String) (predictionBuffer : List String)
    (res : String × ℚ) : List String × String :=
  let buffer := pushLabel predictionBuffer (driverGate res)
  (buffer, getSmoothedPrediction (iter buffer) buffer)

/-- The last `SMOOTHING_WINDOW` entries of a list (all of it when shorter). -/
def lastWindow (labels : List String) : List String :=
  labels.drop (labels.length - SMOOTHING_WINDOW)

/-- A traversal order used for concrete runs: labels in order of first appearance. -/
def firstSeenOrder : List String → List String
  | [] => []
  | l :: ls => l :: (firstSeenOrder ls).filter (fun k => k ≠ l)


/-- The constant `config::EMOTION_LABELS`, the label list "in the order expected by the
model". -/
def EMOTION_LABELS : List String :=
  ["Anger", "Disgust", "Fear", "Happy", "Sad", "Surprise", "Neutral"]

/-- The operations the classifier takes from OpenCV and from the loaded network. -/
structure Backend (Img : Type) (α : Type) where
  /-- The call `cv::flip(faceROI, flipped, 1)`. -/
  flip : Img → Img
  /-- The call `cv::getRotationMatrix2D(center, angle, 1.0)` followed by `cv::warpAffine`. -/
  rotate : Int → Img → Img
  /-- The calls `preprocess`, the copy into the blob, `net.setInput`, `net.forward()` and
  `output.reshape(1, 1)`: the raw score row of one image -/
  forward : Img → List α
  /-- The function `cv::exp` on one entry. -/
  exp : α → α

section Classifier

variable {α : Type} [LinearOrderedField α] {Img : Type}

/-- The softmax lines: `cv::exp(scores, expScores); expScores /= cv::sum(expScores)[0];` -/
def softmax (B : Backend Img α) (scores : List α) : List α :=
  let expScores := scores.map B.exp
  expScores.map (fun e => e / expScores.sum)

/-- Scan of a row for its maximum: current column, best value so far, its column. -/
def maxScan : List α → Nat → α → Nat → α × Nat
  | [], _, best, bestIdx => (best, bestIdx)
  | x :: xs, i, best, bestIdx =>
    if x > best then maxScan xs (i + 1) x i else maxScan xs (i + 1) best bestIdx

/-- Modelled from the spec: `cv::minMaxLoc` (OpenCV, not in the sources) as used here,
returning `(maxVal, classIdPoint.x)`: the maximum entry and the lowest column holding it
("ties broken by lowest index (first occurrence)").  The empty row, which a loaded
network does not produce, is given the value `0` and the location `-1`. -/
def minMaxLoc : List α → α × Int
  | [] => (0, -1)
  | x :: xs => ((maxScan xs 1 x 0).1, ((maxScan xs 1 x 0).2 : Int))

/-- The expression
`(classId >= 0 && classId < labels.size()) ? labels[classId] : "Unknown"`. -/
def labelOf (labels : List String) (classId : Int) : String :=
  if 0 ≤ classId ∧ classId < (labels.length : Int) then labels.getD classId.toNat "Unknown"
  else "Unknown"

/-- The statement `return (maxVal < 0.2) ? "Uncertain" : label;`.  The literal `0.2` is
read as `1/5`: no `float` lies between `1/5` and the `double` nearest to it, so on the
`float` entries of a score row both give the same comparison. -/
def gateLabel (labels : List String) (maxVal : α) (classId : Int) : String :=
  if maxVal < 1 / 5 then "Uncertain" else labelOf labels classId

/-- The common tail of `classify` and `classifyWithTTA`: locate the maximum, report it
as the confidence, pick the label and gate it.  Returns `(label, *confidence)`. -/
def labelAndConfidence (labels : List String) (probs : List α) : String × α :=
  (gateLabel labels (minMaxLoc probs).1 (minMaxLoc probs).2, (minMaxLoc probs).1)

/-- The method `EmotionClassifier::classify(faceROI, confidence)`; the second component
is the value stored through `confidence` when that pointer is not null. -/
def classify (B : Backend Img α) (labels : List String) (faceROI : Img) : String × α :=
  labelAndConfidence labels (softmax B (B.forward faceROI))

/-- The vector `variants` of `classifyWithTTA`: the face, its mirror image, and its
rotations by `-10` and `10` degrees. -/
def ttaVariants (B : Backend Img α) (faceROI : Img) : List Img :=
  [faceROI] ++ [B.flip faceROI] ++ [-10, 10].map (fun angle => B.rotate angle faceROI)

/-- The statement `avgScores += expScores`: rows of equal size are added entry by entry.
Operands of different sizes are outside this model and give `none`: OpenCV does not add
them entry by entry (it raises an error, or takes a single-entry operand as a scalar). -/
def matAdd (a b : List α) : Option (List α) :=
  if a.length = b.length then some (List.zipWith (fun x y => x + y) a b) else none

/-- The accumulation loop of `classifyWithTTA` and the division
`avgScores /= static_cast<float>(variants.size())`. -/
def ttaScores (B : Backend Img α) (labels : List String) (faceROI : Img) : Option (List α) :=
  ((ttaVariants B faceROI).foldlM
      (fun avgScores img => matAdd avgScores (softmax B (B.forward img)))
      (List.replicate labels.length 0)).map
    (fun avgScores => avgScores.map (fun s => s / ((ttaVariants B faceROI).length : α)))

/-- The method `EmotionClassifier::classifyWithTTA(faceROI, confidence)`; `none` when a
score row does not have the size of `labels`, a case this model leaves open. -/
def classifyWithTTA (B : Backend Img α) (labels : List String) (faceROI : Img) :
    Option (String × α) :=
  (ttaScores B labels faceROI).map (labelAndConfidence labels)

end Classifier

/-- A backend for concrete runs on images that are just their score rows: mirroring and
rotation leave the scores as they are, and `exp` is replaced by the positive rational
function `1 + x²`, which agrees with the exponential at `0`. -/
def rowBackend : Backend (List ℚ) ℚ where
  flip := id
  rotate := fun _ img => img
  forward := id
  exp := fun x => 1 + x * x

/-! ## Definitions: batch evaluation (`batch_test.cpp`) -/

/-- The table `label_map` of `normalize_label`. -/
def label_map : List (String × String) :=
  [("angry", "Anger"), ("anger", "Anger"), ("disgust", "Disgust"), ("fear", "Fear"),
   ("happy", "Happiness"), ("happiness", "Happiness"), ("neutral", "Neutral"),
   ("sad", "Sadness"), ("sadness", "Sadness"), ("surprise", "Surprise")]

/-- The call `std::transform(lower.begin(), lower.end(), lower.begin(), ::tolower)`:
every character is lowered on its own; `::tolower` changes the letters `A`..`Z` only. -/
def toLowerStr (s : String) : String :=
  ⟨s.data.map Char.toLower⟩

/-- The function `normalize_label(raw_label)`: look the lower-cased label up in
`label_map`, and return the raw label when it is not a key. -/
def normalize_label (raw_label : String) : String :=
  match label_map.lookup (toLowerStr raw_label) with
  | some canonical => canonical
  | none => raw_label

/-- One pass of the loop that re-reads the log: a row is the three fields
`(image, true_label, predicted_label)` of one line; the state is `(correct, total)`. -/
def countRow (acc : Nat × Nat) (row : String × String × String) : Nat × Nat :=
  (if normalize_label row.2.1 = normalize_label row.2.2 then acc.1 + 1 else acc.1, acc.2 + 1)

/-- The counters `correct` and `total` after all rows have been read. -/
def countRows (rows : List (String × String × String)) : Nat × Nat :=
  rows.foldl countRow (0, 0)

/-- Division of two `double`s as far as it matters here: with a zero divisor the
quotient is not a number (`0.0 / 0` is NaN, `x / 0` is infinite). -/
def divDouble (x y : ℚ) : Option ℚ :=
  if y = 0 then none else some (x / y)

/-- The statement
`double accuracy = total > 0 ? (double)correct / total * 100.0 : 0.0;`;
`none` would be a division by zero. -/
def accuracy (rows : List (String × String × String)) : Option ℚ :=
  if (countRows rows).2 > 0 then
    (divDouble ((countRows rows).1 : ℚ) ((countRows rows).2 : ℚ)).map (fun q => q * 100)
  else some 0

/-- The rows of a log whose labels agree after normalisation. -/
def matchingRows (rows : List (String × String × String)) : List (String × String × String) :=
  rows.filter (fun row => normalize_label row.2.1 = normalize_label row.2.2)

/-! ## Definitions: face alignment and cropping (`main.cpp`, `emotion_classifier.cpp`) -/

/-- A rectangle `cv::Rect`: corner `(x, y)`, `width`, `height`. -/
structure Rect where
  x : Int
  y : Int
  width : Int
  height : Int
deriving DecidableEq

/-- The operations `alignFace` takes from OpenCV and the C library. -/
structure AlignBackend (Img : Type) (α : Type) where
  /-- The call `eye_cascade.detectMultiScale(faceROI, eyes, 1.1, 2, 0, cv::Size(20, 20))`. -/
  detectEyes : Img → List Rect
  /-- The expression `atan2(dy, dx) * 180.0 / CV_PI`, as a function of `dy` and `dx`. -/
  angleDeg : α → α → α
  /-- The calls `cv::getRotationMatrix2D(center, angle, 1.0)` about the centre of the crop
  and `cv::warpAffine`; `none` when OpenCV raises an error. -/
  warp : α → Img → Option Img

section Alignment

variable {α : Type} [LinearOrderedField α] {Img : Type}

/-- The centre of an eye box, `(x + width / 2.0f, y + height / 2.0f)`. -/
def eyeCenter (r : Rect) : α × α :=
  ((r.x : α) + (r.width : α) / 2, (r.y : α) + (r.height : α) / 2)

/-- The rotation angle of `alignFace` for two eye boxes: the centres are put in order of
their `x` coordinate (`if (eye2.x < eye1.x) std::swap(eye1, eye2)`), then the angle of
the line through them is taken. -/
def eyeAngle (A : AlignBackend Img α) (e0 e1 : Rect) : α :=
  let eye1 : α × α := if (eyeCenter e1 : α × α).1 < (eyeCenter e0 : α × α).1
    then eyeCenter e1 else eyeCenter e0
  let eye2 : α × α := if (eyeCenter e1 : α × α).1 < (eyeCenter e0 : α × α).1
    then eyeCenter e0 else eyeCenter e1
  A.angleDeg (eye2.2 - eye1.2) (eye2.1 - eye1.1)

/-- The function `alignFace(faceROI, eye_cascade)`; `none` when OpenCV raises an error in
the rotation. -/
def alignFace (A : AlignBackend Img α) (faceROI : Img) : Option Img :=
  if (A.detectEyes faceROI).length ≠ 2 then some faceROI
  else
    match A.detectEyes faceROI with
    | e0 :: e1 :: _ => A.warp (eyeAngle A e0 e1) faceROI
    | _ => some faceROI

end Alignment

/-- An alignment backend for concrete runs: images are lists of eye boxes, found as
they are; the angle is replaced by the slope numerator `dy` and every rotation raises an
error. -/
def boxBackend : AlignBackend (List Rect) ℚ where
  detectEyes := id
  angleDeg := fun dy _ => dy
  warp := fun _ _ => none

/-- The rectangle `roi` of `preprocess` for a crop with `rows` rows and `cols` columns:
`cropSize = std::min(rows, cols)`, `offsetX = (cols - cropSize) / 2`,
`offsetY = (rows - cropSize) / 2`.  The division is the truncating division of C; for
`rows, cols ≥ 0` every intermediate value lies between `0` and the larger of the two, so
`int` does not overflow. -/
def cropRoi (rows cols : Int) : Rect :=
  let cropSize := min rows cols
  let offsetX := (cols - cropSize).tdiv 2
  let offsetY := (rows - cropSize).tdiv 2
  ⟨offsetX, offsetY, cropSize, cropSize⟩

/-! ## Definitions: the realtime loop with failing classifications (`main.cpp`) -/

/-- What the classifier does for one detected face, as a function of `useTTA`
(`classifier.classifyWithTTA` or `classifier.classify` on the aligned crop):
`some (emotion, confidence)`, or `none` when the call throws. -/
abbrev FaceOutcome := Bool → Option (String × ℚ)

/-- One iteration of `while (true)` that got a non-empty frame: the detected faces in the
order of the detector, and the value of `cv::waitKey(1)` after the frame is shown. -/
structure Frame where
  faces : List FaceOutcome
  key : Int

/-- The variables of `main` that live across frames, and what has been written out. -/
structure DriverState where
  predictionBuffer : List String
  useTTA : Bool
  frameCount : Nat
  /-- The rows written to `results.csv` after the header: `Frame,Emotion,Confidence,TTA`. -/
  csvRows : List (Nat × String × ℚ × Bool)
  /-- The `smoothedLabels` handed to `VideoOverlay::drawDetections`, one list per frame. -/
  shown : List (List String)

/-- The state of `main` when the loop is entered. -/
def initialState : DriverState :=
  ⟨[], false, 0, [], []⟩

/-- The body of the face loop after a classification that returned `res`: gate, write the
CSV row, push into the buffer. -/
def logAndPush (iter : List String → List String) (st : DriverState) (res : String × ℚ) :
    DriverState :=
  { st with
    csvRows := st.csvRows ++ [(st.frameCount, driverGate res, res.2, st.useTTA)]
    predictionBuffer := (faceStep iter st.predictionBuffer res).1 }

/-- The loop `for (const auto& face : faces)` with a classifier that may throw.  The
loop has no handler of its own: `Except.error st` is an exception leaving the loop in
state `st`; `Except.ok` carries the state and `smoothedLabels` after the last face. -/
def processFaces (iter : List String → List String) :
    DriverState → List FaceOutcome → List String → Except DriverState (DriverState × List String)
  | st, [], smoothedLabels => Except.ok (st, smoothedLabels)
  | st, face :: faces, smoothedLabels =>
    match face st.useTTA with
    | none => Except.error st
    | some res =>
      processFaces iter (logAndPush iter st res) faces
        (smoothedLabels ++ [(faceStep iter st.predictionBuffer res).2])

/-- The end of a frame that was processed without an exception and without the quit key:
toggle `useTTA` on `t` or `T`, then `frameCount++`. -/
def endOfFrame (st : DriverState) (smoothedLabels : List String) (key : Int) : DriverState :=
  { st with
    shown := st.shown ++ [smoothedLabels]
    useTTA := if key = 116 ∨ key = 84 then !st.useTTA else st.useTTA
    frameCount := st.frameCount + 1 }

/-- The function `main` from the first frame on: the list holds the non-empty frames the
camera delivers, after which `cap >> frame` yields an empty frame.  Returns the return
value of `main` and the final state.  An exception from the face loop reaches the only
handler, `catch (const std::exception& e)` around the whole body, which prints
"Fatal error" and returns `-1`; the quit key `27` and the empty frame leave the loop and
`main` returns `0`. -/
def mainLoop (iter : List String → List String) : DriverState → List Frame → Int × DriverState
  | st, [] => (0, st)
  | st, frame :: frames =>
    match processFaces iter st frame.faces [] with
    | Except.error st' => (-1, st')
    | Except.ok (st', smoothedLabels) =>
      if frame.key = 27 then (0, { st' with shown := st'.shown ++ [smoothedLabels] })
      else mainLoop iter (endOfFrame st' smoothedLabels frame.key) frames

/-- The run the specification describes for a failing classification: the failing faces
are left out ("skip that face for the current frame and continue the frame"); `useTTA`
is the setting under which the frame is classified. -/
def skipFailedFaces (useTTA : Bool) (frame : Frame) : Frame :=
  { frame with faces := frame.faces.filter (fun face => (face useTTA).isSome) }

/-- The CSV rows of the faces of one frame that the classifier returns for, in order. -/
def frameRows (frameCount : Nat) (useTTA : Bool) (faces : List FaceOutcome) :
    List (Nat × String × ℚ × Bool) :=
  faces.filterMap
    (fun face => (face useTTA).map (fun res => (frameCount, driverGate res, res.2, useTTA)))

/-- A face for which the classifier returns `emotion` with `confidence`, with and
without augmentation. -/
def classifiedAs (emotion : String) (confidence : ℚ) : FaceOutcome :=
  fun _ => some (emotion, confidence)

/-- A face for which the forward call of the model throws. -/
def classifierThrows : FaceOutcome :=
  fun _ => none

/-! ## Theorems: temporal smoothing -/

theorem foldl_update_count (buffer : List String) (f : String → Nat) (l : String) :
    buffer.foldl (fun freq label => Function.update freq label (freq label + 1)) f l
      = f l + buffer.count l := by
  induction buffer generalizing f with
  | nil => simp
  | cons b bs ih =>
    rw [List.foldl_cons, ih, List.count_cons]
    by_cases h : b = l
    · subst h
      simp [Function.update_same]
      omega
    · have h2 : l ≠ b := fun e => h e.symm
      simp [Function.update_noteq h2, h]

theorem buildFreq_eq_count (buffer : List String) (l : String) :
    buildFreq buffer l = buffer.count l := by
  unfold buildFreq
  rw [foldl_update_count]
  simp

/-- Shape of the scan over the frequency table: either nothing beat the start state,
or the winner splits the traversal into strictly smaller entries before it and
entries that are not larger after it. -/
theorem scan_shape (freq : String → Nat) (keys : List String) (acc : String × Nat) :
    (keys.foldl (scanStep freq) acc = acc ∧ ∀ l ∈ keys, freq l ≤ acc.2) ∨
    (∃ pre post, keys = pre ++ (keys.foldl (scanStep freq) acc).1 :: post ∧
      (keys.foldl (scanStep freq) acc).2 = freq (keys.foldl (scanStep freq) acc).1 ∧
      acc.2 < (keys.foldl (scanStep freq) acc).2 ∧
      (∀ l ∈ pre, freq l < (keys.foldl (scanStep freq) acc).2) ∧
      ∀ l ∈ post, freq l ≤ (keys.foldl (scanStep freq) acc).2) := by
  induction keys generalizing acc with
  | nil => left; simp
  | cons k ks ih =>
    rw [List.foldl_cons]
    have hstep : acc.2 ≤ (scanStep freq acc k).2 ∧ freq k ≤ (scanStep freq acc k).2 := by
      unfold scanStep
      split <;> simp <;> omega
    rcases ih (scanStep freq acc k) with ⟨heq, hall⟩ | ⟨pre, post, hk, hfr, hlt, hpre, hpost⟩
    · by_cases hgt : freq k > acc.2
      · right
        have hs : scanStep freq acc k = (k, freq k) := by simp [scanStep, hgt]
        refine ⟨[], ks, ?_, ?_, ?_, ?_, ?_⟩
        · rw [heq, hs]; simp
        · rw [heq, hs]
        · rw [heq, hs]; exact hgt
        · simp
        · intro l hl
          have := hall l hl
          rw [heq]
          exact this
      · left
        have hs : scanStep freq acc k = acc := by simp [scanStep, hgt]
        rw [hs] at heq hall
        refine ⟨by rw [hs]; exact heq, ?_⟩
        intro l hl
        rcases List.mem_cons.mp hl with rfl | hl
        · omega
        · exact hall l hl
    · right
      refine ⟨k :: pre, post, ?_, hfr, ?_, ?_, hpost⟩
      · rw [List.cons_append, ← hk]
      · omega
      · intro l hl
        rcases List.mem_cons.mp hl with rfl | hl
        · omega
        · exact hpre l hl

/-- For a non-empty buffer the scan does find a winner, and the winner splits the
traversal order as described in `scan_shape`. -/
theorem smoothed_split (keys buffer : List String) (hne : buffer ≠ [])
    (hord : IterationOrder keys buffer) :
    ∃ pre post, keys = pre ++ getSmoothedPrediction keys buffer :: post ∧
      (∀ l ∈ pre, buffer.count l < buffer.count (getSmoothedPrediction keys buffer)) ∧
      ∀ l ∈ post, buffer.count l ≤ buffer.count (getSmoothedPrediction keys buffer) := by
  obtain ⟨b, bs, rfl⟩ := List.exists_cons_of_ne_nil hne
  unfold getSmoothedPrediction
  rcases scan_shape (buildFreq (b :: bs)) keys ("", 0) with ⟨_, hall⟩ | ⟨pre, post, hk, hfr, _, hpre, hpost⟩
  · exfalso
    have hb : b ∈ keys := hord.2.2 b (List.mem_cons_self _ _)
    have := hall b hb
    rw [buildFreq_eq_count] at this
    simp at this
  · refine ⟨pre, post, hk, ?_, ?_⟩
    · intro l hl
      have := hpre l hl
      rw [hfr, buildFreq_eq_count, buildFreq_eq_count] at this
      exact this
    · intro l hl
      have := hpost l hl
      rw [hfr, buildFreq_eq_count, buildFreq_eq_count] at this
      exact this


/-- C1: for every non-empty smoothing buffer, whatever the order in which the
frequency table is traversed, `getSmoothedPrediction` returns a label that occurs in the
buffer and occurs at least as often as every other label; on
`["Happy","Happy","Sad","Happy","Sad"]` it returns `"Happy"`. -/
theorem getSmoothedPrediction_most_frequent (keys buffer : List String) (hne : buffer ≠ [])
    (hord : IterationOrder keys buffer) :
    getSmoothedPrediction keys buffer ∈ buffer ∧
    (∀ l, buffer.count l ≤ buffer.count (getSmoothedPrediction keys buffer)) ∧
    (buffer = ["Happy", "Happy", "Sad", "Happy", "Sad"] →
      getSmoothedPrediction keys buffer = "Happy") := by
  obtain ⟨pre, post, hk, hpre, hpost⟩ := smoothed_split keys buffer hne hord
  generalize getSmoothedPrediction keys buffer = r at hk hpre hpost ⊢
  have hmem : r ∈ buffer := by
    apply hord.2.1
    rw [hk]
    simp
  have hmax : ∀ l, buffer.count l ≤ buffer.count r := by
    intro l
    by_cases hl : l ∈ buffer
    · have hlk : l ∈ keys := hord.2.2 l hl
      rw [hk] at hlk
      rcases List.mem_append.mp hlk with h | h
      · exact Nat.le_of_lt (hpre l h)
      · rcases List.mem_cons.mp h with h | h
        · rw [← h]
        · exact hpost l h
    · rw [List.count_eq_zero_of_not_mem hl]
      exact Nat.zero_le _
  refine ⟨hmem, hmax, ?_⟩
  intro hb
  have h3 := hmax "Happy"
  clear hmax hk hpre hpost hord
  subst hb
  simp only [List.mem_cons, List.mem_singleton, List.not_mem_nil, or_false] at hmem
  rcases hmem with h | h | h | h | h
  · exact h
  · exact h
  · subst h; revert h3; decide
  · exact h
  · subst h; revert h3; decide

theorem getSmoothedPrediction_most_frequent_witness :
    getSmoothedPrediction ["Sad", "Happy"] ["Happy", "Happy", "Sad", "Happy", "Sad"]
      ∈ ["Happy", "Happy", "Sad", "Happy", "Sad"] ∧
    getSmoothedPrediction ["Sad", "Happy"] ["Happy", "Happy", "Sad", "Happy", "Sad"] = "Happy" :=
  ⟨(getSmoothedPrediction_most_frequent ["Sad", "Happy"]
      ["Happy", "Happy", "Sad", "Happy", "Sad"] (by decide) (by decide)).1,
   (getSmoothedPrediction_most_frequent ["Sad", "Happy"]
      ["Happy", "Happy", "Sad", "Happy", "Sad"] (by decide) (by decide)).2.2 rfl⟩

/-- C2 (as stated, refuted): on the buffer `["A","B"]`, when the frequency table is
traversed in the order `B, A`, `getSmoothedPrediction` returns `"B"`, whereas the
first label to reach the maximum count in a left-to-right scan of the buffer is `"A"`. -/
theorem getSmoothedPrediction_tie_not_earliest :
    IterationOrder ["B", "A"] ["A", "B"] ∧
    getSmoothedPrediction ["B", "A"] ["A", "B"] = "B" ∧
    firstToReachMax ["A", "B"] = "A" ∧
    getSmoothedPrediction ["B", "A"] ["A", "B"] ≠ firstToReachMax ["A", "B"] := by
  decide

/-- C2 (amended): for every non-empty buffer, `getSmoothedPrediction` returns the first
label of maximum count in the traversal order of the frequency table: every label
visited before it occurs strictly less often, every label visited after it occurs at
most as often.  On `["A","B"]` the result is `"A"` when `A` is visited first. -/
theorem getSmoothedPrediction_tie_first_visited (keys buffer : List String)
    (hne : buffer ≠ []) (hord : IterationOrder keys buffer) :
    (∃ pre post, keys = pre ++ getSmoothedPrediction keys buffer :: post ∧
      (∀ l ∈ pre, buffer.count l < buffer.count (getSmoothedPrediction keys buffer)) ∧
      ∀ l ∈ post, buffer.count l ≤ buffer.count (getSmoothedPrediction keys buffer)) ∧
    (buffer = ["A", "B"] → keys = ["A", "B"] → getSmoothedPrediction keys buffer = "A") := by
  refine ⟨smoothed_split keys buffer hne hord, ?_⟩
  intro hb hk
  subst hb hk
  decide

theorem getSmoothedPrediction_tie_first_visited_witness :
    getSmoothedPrediction ["A", "B"] ["A", "B"] = "A" :=
  (getSmoothedPrediction_tie_first_visited ["A", "B"] ["A", "B"] (by decide) (by decide)).2
    rfl rfl

theorem pushLabel_lastWindow (labels : List String) (x : String) :
    pushLabel (lastWindow labels) x = lastWindow (labels ++ [x]) := by
  unfold pushLabel lastWindow SMOOTHING_WINDOW
  have hlen : (List.drop (labels.length - 5) labels ++ [x]).length
      = min labels.length 5 + 1 := by
    simp
    omega
  have happ : List.drop (labels.length - 5) labels ++ [x]
      = List.drop (labels.length - 5) (labels ++ [x]) := by
    rw [List.drop_append_of_le_length (by omega)]
  simp only [hlen]
  by_cases h : labels.length < 5
  · have h1 : ¬ (min labels.length 5 + 1 > 5) := by omega
    rw [if_neg h1, happ]
    simp
    congr 1
    omega
  · have h1 : min labels.length 5 + 1 > 5 := by omega
    rw [if_pos h1, happ, List.tail_drop]
    simp
    congr 1
    omega

theorem foldl_pushLabel_lastWindow (pre labels : List String) :
    labels.foldl pushLabel (lastWindow pre) = lastWindow (pre ++ labels) := by
  induction labels generalizing pre with
  | nil => simp
  | cons x xs ih =>
    rw [List.foldl_cons, pushLabel_lastWindow, ih]
    simp

/-- C3: starting from the empty buffer, after the driver's push step has been applied
to a sequence of `n` labels the buffer is the last `min n 5` labels of the sequence in
their original order; its length never exceeds 5, and pushing 6 labels leaves exactly
the last 5. -/
theorem push_keeps_last_window (labels : List String) :
    labels.foldl pushLabel [] = labels.drop (labels.length - min labels.length 5) ∧
    (labels.foldl pushLabel []).length = min labels.length 5 ∧
    (labels.foldl pushLabel []).length ≤ SMOOTHING_WINDOW ∧
    (∀ a b c d e f, labels = [a, b, c, d, e, f] →
      labels.foldl pushLabel [] = [b, c, d, e, f]) := by
  have h := foldl_pushLabel_lastWindow [] labels
  have h0 : lastWindow [] = [] := rfl
  rw [h0, List.nil_append] at h
  have hmin : labels.length - min labels.length 5 = labels.length - 5 := by omega
  refine ⟨?_, ?_, ?_, ?_⟩
  · rw [h, hmin]; rfl
  · rw [h]; unfold lastWindow SMOOTHING_WINDOW; simp; omega
  · rw [h]; unfold lastWindow SMOOTHING_WINDOW; simp; omega
  · intro a b c d e f hl
    subst hl
    rfl

theorem push_keeps_last_window_witness :
    ["l1", "l2", "l3", "l4", "l5", "l6"].foldl pushLabel [] = ["l2", "l3", "l4", "l5", "l6"] :=
  (push_keeps_last_window ["l1", "l2", "l3", "l4", "l5", "l6"]).2.2.2
    "l1" "l2" "l3" "l4" "l5" "l6" rfl

/-! ## Theorems: the driver's buffer -/

theorem firstSeenOrder_mem (buffer : List String) (l : String) :
    l ∈ firstSeenOrder buffer ↔ l ∈ buffer := by
  induction buffer with
  | nil => simp [firstSeenOrder]
  | cons b bs ih =>
    simp only [firstSeenOrder, List.mem_cons, List.mem_filter, ih]
    by_cases h : l = b <;> simp [h]

theorem firstSeenOrder_valid (buffer : List String) :
    IterationOrder (firstSeenOrder buffer) buffer := by
  refine ⟨?_, fun l hl => (firstSeenOrder_mem buffer l).mp hl,
    fun l hl => (firstSeenOrder_mem buffer l).mpr hl⟩
  induction buffer with
  | nil => simp [firstSeenOrder]
  | cons b bs ih =>
    simp only [firstSeenOrder, List.nodup_cons]
    exact ⟨by simp [List.mem_filter], ih.filter _⟩

section ClassifierTheorems

variable {α : Type} [LinearOrderedField α] {Img : Type}

theorem maxScan_spec (xs : List α) (i : Nat) (best : α) (bestIdx : Nat) :
    (((maxScan xs i best bestIdx).1 = best ∧ (maxScan xs i best bestIdx).2 = bestIdx) ∨
      ∃ k, xs.get? k = some (maxScan xs i best bestIdx).1 ∧
        (maxScan xs i best bestIdx).2 = i + k) ∧
    best ≤ (maxScan xs i best bestIdx).1 ∧
    ∀ p ∈ xs, p ≤ (maxScan xs i best bestIdx).1 := by
  induction xs generalizing i best bestIdx with
  | nil => simp [maxScan]
  | cons x xs ih =>
    unfold maxScan
    by_cases h : x > best
    · rw [if_pos h]
      obtain ⟨h1, h2, h3⟩ := ih (i + 1) x i
      refine ⟨?_, le_trans (le_of_lt h) h2, ?_⟩
      · right
        rcases h1 with ⟨e1, e2⟩ | ⟨k, e1, e2⟩
        · exact ⟨0, by simp [e1], by simp [e2]⟩
        · exact ⟨k + 1, by simpa using e1, by omega⟩
      · intro p hp
        rcases List.mem_cons.mp hp with rfl | hp
        · exact h2
        · exact h3 p hp
    · rw [if_neg h]
      obtain ⟨h1, h2, h3⟩ := ih (i + 1) best bestIdx
      refine ⟨?_, h2, ?_⟩
      · rcases h1 with ⟨e1, e2⟩ | ⟨k, e1, e2⟩
        · left; exact ⟨e1, e2⟩
        · right; exact ⟨k + 1, by simpa using e1, by omega⟩
      · intro p hp
        rcases List.mem_cons.mp hp with rfl | hp
        · exact le_trans (not_lt.mp h) h2
        · exact h3 p hp

/-- On a non-empty row the modelled `minMaxLoc` returns the largest entry together with
a column that holds it. -/
theorem minMaxLoc_spec (probs : List α) (hne : probs ≠ []) :
    (minMaxLoc probs).1 ∈ probs ∧ (∀ p ∈ probs, p ≤ (minMaxLoc probs).1) ∧
    0 ≤ (minMaxLoc probs).2 ∧
    probs.get? (minMaxLoc probs).2.toNat = some (minMaxLoc probs).1 := by
  obtain ⟨x, xs, rfl⟩ := List.exists_cons_of_ne_nil hne
  obtain ⟨h1, h2, h3⟩ := maxScan_spec xs 1 x 0
  simp only [minMaxLoc]
  have hget : (x :: xs).get? (maxScan xs 1 x 0).2 = some (maxScan xs 1 x 0).1 := by
    rcases h1 with ⟨e1, e2⟩ | ⟨k, e1, e2⟩
    · rw [e1, e2]; rfl
    · rw [e2, Nat.add_comm]; simpa using e1
  refine ⟨?_, ?_, ?_, ?_⟩
  · exact List.get?_mem hget
  · intro p hp
    rcases List.mem_cons.mp hp with rfl | hp
    · exact h2
    · exact h3 p hp
  · exact Int.natCast_nonneg _
  · simpa using hget

theorem labelOf_ne_uncertain (classId : Int) : labelOf EMOTION_LABELS classId ≠ "Uncertain" := by
  unfold labelOf
  split
  · rename_i h
    obtain ⟨h0, h7⟩ := h
    have h7 : classId < 7 := h7
    interval_cases classId <;> decide
  · decide

theorem gateLabel_uncertain_iff (maxVal : α) (classId : Int) :
    gateLabel EMOTION_LABELS maxVal classId = "Uncertain" ↔ maxVal < 1 / 5 := by
  unfold gateLabel
  by_cases h : maxVal < 1 / 5
  · rw [if_pos h]
    exact ⟨fun _ => h, fun _ => rfl⟩
  · rw [if_neg h]
    exact ⟨fun e => absurd e (labelOf_ne_uncertain classId), fun e => absurd e h⟩


theorem softmax_length (B : Backend Img α) (scores : List α) :
    (softmax B scores).length = scores.length := by
  simp [softmax]

theorem matAdd_of_length (a b : List α) (h : a.length = b.length) :
    matAdd a b = some (List.zipWith (fun x y => x + y) a b) := by
  simp [matAdd, h]

theorem getD_zipWith_add (a b : List α) (h : a.length = b.length) (j : Nat) :
    (List.zipWith (fun x y => x + y) a b).getD j 0 = a.getD j 0 + b.getD j 0 := by
  induction a generalizing b j with
  | nil =>
    cases b with
    | nil => simp
    | cons y ys => simp at h
  | cons x xs ih =>
    cases b with
    | nil => simp at h
    | cons y ys =>
      cases j with
      | zero => simp
      | succ j =>
        have h' : xs.length = ys.length := by simpa using h
        simpa using ih ys h' j

theorem getD_map_div (l : List α) (c : α) (j : Nat) :
    (l.map (fun s => s / c)).getD j 0 = l.getD j 0 / c := by
  induction l generalizing j with
  | nil => simp
  | cons x xs ih =>
    cases j with
    | zero => simp
    | succ j => simpa using ih j

theorem getD_replicate_zero (n j : Nat) : (List.replicate n (0 : α)).getD j 0 = 0 := by
  induction n generalizing j with
  | zero => simp
  | succ n ih =>
    cases j with
    | zero => simp [List.replicate]
    | succ j => simp [List.replicate]

/-- C6 (amended): `classifyWithTTA` runs the model on exactly 4 variants (the face, its
mirror image, its rotations by `-10` and `+10` degrees); when each of the four score rows
has one entry per label, the final score vector is the elementwise arithmetic mean of
the 4 per-variant softmax rows, their sum divided by 4. -/
theorem tta_mean_of_four_variants (B : Backend Img α) (labels : List String) (faceROI : Img)
    (hlen : ∀ img ∈ ttaVariants B faceROI, (B.forward img).length = labels.length) :
    ttaVariants B faceROI
      = [faceROI, B.flip faceROI, B.rotate (-10) faceROI, B.rotate 10 faceROI] ∧
    ∃ avgScores, ttaScores B labels faceROI = some avgScores ∧
      avgScores.length = labels.length ∧
      ∀ j, avgScores.getD j 0
        = ((ttaVariants B faceROI).map
            (fun img => (softmax B (B.forward img)).getD j 0)).sum / 4 := by
  have hv : ttaVariants B faceROI
      = [faceROI, B.flip faceROI, B.rotate (-10) faceROI, B.rotate 10 faceROI] := rfl
  rw [hv] at hlen
  have l0 := hlen faceROI (by simp)
  have l1 := hlen (B.flip faceROI) (by simp)
  have l2 := hlen (B.rotate (-10) faceROI) (by simp)
  have l3 := hlen (B.rotate 10 faceROI) (by simp)
  refine ⟨hv, ?_⟩
  unfold ttaScores
  rw [hv]
  have a0 : (List.replicate labels.length (0 : α)).length
      = (softmax B (B.forward faceROI)).length := by
    rw [softmax_length, l0, List.length_replicate]
  have a1 : (List.zipWith (fun x y => x + y) (List.replicate labels.length (0 : α))
      (softmax B (B.forward faceROI))).length
      = (softmax B (B.forward (B.flip faceROI))).length := by
    rw [List.length_zipWith, softmax_length, softmax_length, l0, l1, List.length_replicate]
    simp
  have a2 : (List.zipWith (fun x y => x + y)
      (List.zipWith (fun x y => x + y) (List.replicate labels.length (0 : α))
        (softmax B (B.forward faceROI))) (softmax B (B.forward (B.flip faceROI)))).length
      = (softmax B (B.forward (B.rotate (-10) faceROI))).length := by
    rw [List.length_zipWith, a1, softmax_length, softmax_length, l1, l2]
    simp
  have a3 : (List.zipWith (fun x y => x + y) (List.zipWith (fun x y => x + y)
      (List.zipWith (fun x y => x + y) (List.replicate labels.length (0 : α))
        (softmax B (B.forward faceROI))) (softmax B (B.forward (B.flip faceROI))))
        (softmax B (B.forward (B.rotate (-10) faceROI)))).length
      = (softmax B (B.forward (B.rotate 10 faceROI))).length := by
    rw [List.length_zipWith, a2, softmax_length, softmax_length, l2, l3]
    simp
  simp only [List.foldlM, matAdd_of_length _ _ a0, matAdd_of_length _ _ a1,
    matAdd_of_length _ _ a2, matAdd_of_length _ _ a3, Option.some_bind, Option.pure_def,
    Option.bind_eq_bind, Option.map_some']
  refine ⟨_, rfl, ?_, ?_⟩
  · rw [List.length_map, List.length_zipWith, a3, softmax_length, l3]
    simp
  · intro j
    rw [getD_map_div, getD_zipWith_add _ _ a3, getD_zipWith_add _ _ a2,
      getD_zipWith_add _ _ a1, getD_zipWith_add _ _ a0, getD_replicate_zero]
    simp only [List.map_cons, List.map_nil, List.sum_cons, List.sum_nil, List.length_cons,
      List.length_nil]
    norm_num
    ring

theorem sum_map_div (l : List α) (c : α) : (l.map (fun e => e / c)).sum = l.sum / c := by
  induction l with
  | nil => simp
  | cons x xs ih => simp [ih, add_div]

/-- In exact arithmetic, with a positive exponential, the softmax of a non-empty score
row has non-negative entries that sum to `1`.  (The classifier computes in `float`,
where this holds up to rounding only and fails once an exponential overflows.) -/
theorem softmax_exact_arithmetic (B : Backend Img α) (scores : List α) (hne : scores ≠ [])
    (hpos : ∀ x, 0 < B.exp x) :
    (∀ p ∈ softmax B scores, 0 ≤ p) ∧ (softmax B scores).sum = 1 := by
  have hsum : 0 < (scores.map B.exp).sum := by
    obtain ⟨x, xs, rfl⟩ := List.exists_cons_of_ne_nil hne
    rw [List.map_cons, List.sum_cons]
    have : 0 ≤ (xs.map B.exp).sum := by
      apply List.sum_nonneg
      intro e he
      obtain ⟨y, _, rfl⟩ := List.mem_map.mp he
      exact le_of_lt (hpos y)
    have := hpos x
    linarith
  constructor
  · intro p hp
    unfold softmax at hp
    obtain ⟨e, he, rfl⟩ := List.mem_map.mp hp
    obtain ⟨y, _, rfl⟩ := List.mem_map.mp he
    exact le_of_lt (div_pos (hpos y) hsum)
  · unfold softmax
    rw [sum_map_div]
    exact div_self (ne_of_gt hsum)

theorem accumulate_returns (B : Backend Img α) (n : Nat) (imgs : List Img) (init : List α)
    (hinit : init.length = n) (himgs : ∀ img ∈ imgs, (B.forward img).length = n) :
    ∃ acc, imgs.foldlM (fun avgScores img => matAdd avgScores (softmax B (B.forward img))) init
        = some acc ∧ acc.length = n := by
  induction imgs generalizing init with
  | nil => exact ⟨init, rfl, hinit⟩
  | cons img rest ih =>
    have hlen : init.length = (softmax B (B.forward img)).length := by
      rw [softmax_length, hinit, himgs img (List.mem_cons_self _ _)]
    have hnext : (List.zipWith (fun x y => x + y) init (softmax B (B.forward img))).length
        = n := by
      rw [List.length_zipWith, ← hlen, hinit]
      simp
    obtain ⟨acc, hacc, hn⟩ := ih _ hnext (fun i hi => himgs i (List.mem_cons_of_mem _ hi))
    refine ⟨acc, ?_, hn⟩
    rw [List.foldlM_cons, matAdd_of_length _ _ hlen]
    exact hacc

/-- When every variant's score row has one entry per label, `ttaScores` returns a row
with one entry per label. -/
theorem ttaScores_returns (B : Backend Img α) (labels : List String) (faceROI : Img)
    (hlen : ∀ img ∈ ttaVariants B faceROI, (B.forward img).length = labels.length) :
    ∃ avgScores, ttaScores B labels faceROI = some avgScores ∧
      avgScores.length = labels.length := by
  obtain ⟨acc, hacc, hn⟩ := accumulate_returns B labels.length (ttaVariants B faceROI)
    (List.replicate labels.length 0) (List.length_replicate _ _) hlen
  refine ⟨acc.map (fun s => s / ((ttaVariants B faceROI).length : α)), ?_, ?_⟩
  · unfold ttaScores
    rw [hacc]
    rfl
  · rw [List.length_map, hn]

/-- C5: for `classify`, for `classifyWithTTA` and for every final probability vector,
the returned label is `"Uncertain"` exactly when the reported confidence is strictly
below `0.2`; at confidence exactly `0.2` the label of the arg-max column is returned
unchanged; and the reported confidence is the maximum entry of the vector (held by the
arg-max column) whether or not the label was overridden.  `classify` always returns such
a pair, computed from the softmax of the score row; `classifyWithTTA` returns such a
pair, computed from its averaged row, whenever every variant's score row has one entry
per label. -/
theorem uncertain_iff_confidence_below_threshold (B : Backend Img α) (faceROI : Img)
    (probs : List α) :
    ((labelAndConfidence EMOTION_LABELS probs).1 = "Uncertain" ↔
      (labelAndConfidence EMOTION_LABELS probs).2 < 1 / 5) ∧
    ((labelAndConfidence EMOTION_LABELS probs).2 = 1 / 5 →
      (labelAndConfidence EMOTION_LABELS probs).1
        = labelOf EMOTION_LABELS (minMaxLoc probs).2) ∧
    (probs ≠ [] →
      (labelAndConfidence EMOTION_LABELS probs).2 ∈ probs ∧
      (∀ p ∈ probs, p ≤ (labelAndConfidence EMOTION_LABELS probs).2) ∧
      probs.get? (minMaxLoc probs).2.toNat = some (labelAndConfidence EMOTION_LABELS probs).2) ∧
    classify B EMOTION_LABELS faceROI
      = labelAndConfidence EMOTION_LABELS (softmax B (B.forward faceROI)) ∧
    ((classify B EMOTION_LABELS faceROI).1 = "Uncertain" ↔
      (classify B EMOTION_LABELS faceROI).2 < 1 / 5) ∧
    (∀ r, classifyWithTTA B EMOTION_LABELS faceROI = some r →
      (∃ avgScores, ttaScores B EMOTION_LABELS faceROI = some avgScores ∧
        r = labelAndConfidence EMOTION_LABELS avgScores) ∧
      (r.1 = "Uncertain" ↔ r.2 < 1 / 5)) ∧
    ((classify B EMOTION_LABELS faceROI).2 = 1 / 5 →
      (classify B EMOTION_LABELS faceROI).1
        = labelOf EMOTION_LABELS (minMaxLoc (softmax B (B.forward faceROI))).2) ∧
    (B.forward faceROI ≠ [] →
      (classify B EMOTION_LABELS faceROI).2 ∈ softmax B (B.forward faceROI) ∧
      ∀ p ∈ softmax B (B.forward faceROI), p ≤ (classify B EMOTION_LABELS faceROI).2) ∧
    ((∀ img ∈ ttaVariants B faceROI, (B.forward img).length = EMOTION_LABELS.length) →
      ∃ avgScores, ttaScores B EMOTION_LABELS faceROI = some avgScores ∧
        avgScores.length = 7 ∧
        classifyWithTTA B EMOTION_LABELS faceROI
          = some (labelAndConfidence EMOTION_LABELS avgScores) ∧
        ((labelAndConfidence EMOTION_LABELS avgScores).1 = "Uncertain" ↔
          (labelAndConfidence EMOTION_LABELS avgScores).2 < 1 / 5) ∧
        ((labelAndConfidence EMOTION_LABELS avgScores).2 = 1 / 5 →
          (labelAndConfidence EMOTION_LABELS avgScores).1
            = labelOf EMOTION_LABELS (minMaxLoc avgScores).2) ∧
        (labelAndConfidence EMOTION_LABELS avgScores).2 ∈ avgScores ∧
        ∀ p ∈ avgScores, p ≤ (labelAndConfidence EMOTION_LABELS avgScores).2) := by
  have hexact : ∀ row : List α, (labelAndConfidence EMOTION_LABELS row).2 = 1 / 5 →
      (labelAndConfidence EMOTION_LABELS row).1
        = labelOf EMOTION_LABELS (minMaxLoc row).2 := by
    intro row h
    have h' : (minMaxLoc row).1 = 1 / 5 := h
    show gateLabel EMOTION_LABELS (minMaxLoc row).1 (minMaxLoc row).2 = _
    unfold gateLabel
    rw [h', if_neg (lt_irrefl _)]
  refine ⟨gateLabel_uncertain_iff _ _, hexact probs, ?_, rfl, gateLabel_uncertain_iff _ _,
    ?_, hexact _, ?_, ?_⟩
  · intro hne
    obtain ⟨h1, h2, _, h4⟩ := minMaxLoc_spec probs hne
    exact ⟨h1, h2, h4⟩
  · intro r hr
    unfold classifyWithTTA at hr
    cases hs : ttaScores B EMOTION_LABELS faceROI with
    | none => rw [hs] at hr; simp at hr
    | some avgScores =>
      rw [hs] at hr
      simp only [Option.map_some', Option.some.injEq] at hr
      subst hr
      exact ⟨⟨avgScores, rfl, rfl⟩, gateLabel_uncertain_iff _ _⟩
  · intro hne
    have hsm : softmax B (B.forward faceROI) ≠ [] := by
      intro h
      have := softmax_length B (B.forward faceROI)
      rw [h] at this
      exact hne (List.length_eq_zero.mp this.symm)
    obtain ⟨h1, h2, _, _⟩ := minMaxLoc_spec (softmax B (B.forward faceROI)) hsm
    exact ⟨h1, h2⟩
  · intro hlen
    obtain ⟨avgScores, hs, hn⟩ := ttaScores_returns B EMOTION_LABELS faceROI hlen
    have hne : avgScores ≠ [] := by
      intro h
      rw [h] at hn
      simp [EMOTION_LABELS] at hn
    obtain ⟨h1, h2, _, _⟩ := minMaxLoc_spec avgScores hne
    refine ⟨avgScores, hs, hn, ?_, gateLabel_uncertain_iff _ _, hexact avgScores, h1, h2⟩
    unfold classifyWithTTA
    rw [hs]
    rfl

end ClassifierTheorems

theorem uncertain_iff_confidence_below_threshold_witness :
    (classify rowBackend EMOTION_LABELS [0, 0, 0, 0, 0, 0, 0] = ("Uncertain", 1 / 7) ∧
      (classify rowBackend EMOTION_LABELS [0, 0, 0, 0, 0, 0, 0]).1 = "Uncertain") ∧
    (classify rowBackend EMOTION_LABELS [1, 1, 1, 0, 0, 0, 0] = ("Anger", 1 / 5) ∧
      (classify rowBackend EMOTION_LABELS [1, 1, 1, 0, 0, 0, 0]).1
        = labelOf EMOTION_LABELS (minMaxLoc (softmax rowBackend
            (rowBackend.forward [1, 1, 1, 0, 0, 0, 0]))).2) ∧
    (classifyWithTTA rowBackend EMOTION_LABELS [0, 0, 0, 0, 0, 0, 0]
        = some ("Uncertain", 1 / 7) ∧
      ∃ avgScores, ttaScores rowBackend EMOTION_LABELS [0, 0, 0, 0, 0, 0, 0] = some avgScores ∧
        classifyWithTTA rowBackend EMOTION_LABELS [0, 0, 0, 0, 0, 0, 0]
          = some (labelAndConfidence EMOTION_LABELS avgScores) ∧
        (labelAndConfidence EMOTION_LABELS avgScores).2 ∈ avgScores) ∧
    (classifyWithTTA rowBackend EMOTION_LABELS [1, 1, 1, 0, 0, 0, 0] = some ("Anger", 1 / 5) ∧
      ∃ avgScores, ttaScores rowBackend EMOTION_LABELS [1, 1, 1, 0, 0, 0, 0] = some avgScores ∧
        classifyWithTTA rowBackend EMOTION_LABELS [1, 1, 1, 0, 0, 0, 0]
          = some (labelAndConfidence EMOTION_LABELS avgScores)) := by
  have hf : ∀ img : List ℚ, rowBackend.forward img = img := fun _ => rfl
  have hflip : ∀ img : List ℚ, rowBackend.flip img = img := fun _ => rfl
  have hrot : ∀ (a : Int) (img : List ℚ), rowBackend.rotate a img = img := fun _ _ => rfl
  have s0 : softmax rowBackend ([0, 0, 0, 0, 0, 0, 0] : List ℚ)
      = [1 / 7, 1 / 7, 1 / 7, 1 / 7, 1 / 7, 1 / 7, 1 / 7] := by
    norm_num [softmax, rowBackend]
  have s1 : softmax rowBackend ([1, 1, 1, 0, 0, 0, 0] : List ℚ)
      = [1 / 5, 1 / 5, 1 / 5, 1 / 10, 1 / 10, 1 / 10, 1 / 10] := by
    norm_num [softmax, rowBackend]
  have l0 : labelAndConfidence EMOTION_LABELS
      ([1 / 7, 1 / 7, 1 / 7, 1 / 7, 1 / 7, 1 / 7, 1 / 7] : List ℚ) = ("Uncertain", 1 / 7) := by
    norm_num [labelAndConfidence, minMaxLoc, maxScan, gateLabel]
  have l1 : labelAndConfidence EMOTION_LABELS
      ([1 / 5, 1 / 5, 1 / 5, 1 / 10, 1 / 10, 1 / 10, 1 / 10] : List ℚ) = ("Anger", 1 / 5) := by
    norm_num [labelAndConfidence, minMaxLoc, maxScan, gateLabel, labelOf, EMOTION_LABELS]
  have c0 : classify rowBackend EMOTION_LABELS [0, 0, 0, 0, 0, 0, 0] = ("Uncertain", 1 / 7) := by
    rw [classify, hf, s0, l0]
  have c1 : classify rowBackend EMOTION_LABELS [1, 1, 1, 0, 0, 0, 0] = ("Anger", 1 / 5) := by
    rw [classify, hf, s1, l1]
  have t0 : ttaScores rowBackend EMOTION_LABELS [0, 0, 0, 0, 0, 0, 0]
      = some [1 / 7, 1 / 7, 1 / 7, 1 / 7, 1 / 7, 1 / 7, 1 / 7] := by
    simp only [ttaScores, ttaVariants, List.map, List.cons_append, List.nil_append,
      List.foldlM, hf, hflip, hrot, s0]
    norm_num [matAdd, EMOTION_LABELS, List.replicate]
  have t1 : ttaScores rowBackend EMOTION_LABELS [1, 1, 1, 0, 0, 0, 0]
      = some [1 / 5, 1 / 5, 1 / 5, 1 / 10, 1 / 10, 1 / 10, 1 / 10] := by
    simp only [ttaScores, ttaVariants, List.map, List.cons_append, List.nil_append,
      List.foldlM, hf, hflip, hrot, s1]
    norm_num [matAdd, EMOTION_LABELS, List.replicate]
  have w0 := (uncertain_iff_confidence_below_threshold rowBackend
    ([0, 0, 0, 0, 0, 0, 0] : List ℚ) []).2.2.2.2.2.2.2.2
    (by simp [ttaVariants, rowBackend, EMOTION_LABELS])
  have w1 := (uncertain_iff_confidence_below_threshold rowBackend
    ([1, 1, 1, 0, 0, 0, 0] : List ℚ) []).2.2.2.2.2.2.2.2
    (by simp [ttaVariants, rowBackend, EMOTION_LABELS])
  refine ⟨⟨c0, ?_⟩, ⟨c1, ?_⟩, ⟨?_, ?_⟩, ⟨?_, ?_⟩⟩
  · exact (uncertain_iff_confidence_below_threshold rowBackend
      ([0, 0, 0, 0, 0, 0, 0] : List ℚ) []).2.2.2.2.1.mpr (by rw [c0]; norm_num)
  · exact (uncertain_iff_confidence_below_threshold rowBackend
      ([1, 1, 1, 0, 0, 0, 0] : List ℚ) []).2.2.2.2.2.2.1 (by rw [c1])
  · rw [classifyWithTTA, t0, Option.map_some', l0]
  · obtain ⟨avgScores, h1, _, h3, _, _, h6, _⟩ := w0
    exact ⟨avgScores, h1, h3, h6⟩
  · rw [classifyWithTTA, t1, Option.map_some', l1]
  · obtain ⟨avgScores, h1, _, h3, _⟩ := w1
    exact ⟨avgScores, h1, h3⟩

theorem tta_mean_of_four_variants_witness :
    ∃ avgScores, ttaScores rowBackend EMOTION_LABELS [0, 0, 0, 0, 0, 0, 0] = some avgScores ∧
      avgScores.length = EMOTION_LABELS.length ∧
      ∀ j, avgScores.getD j 0
        = ((ttaVariants rowBackend [0, 0, 0, 0, 0, 0, 0]).map
            (fun img => (softmax rowBackend (rowBackend.forward img)).getD j 0)).sum / 4 :=
  (tta_mean_of_four_variants rowBackend EMOTION_LABELS [0, 0, 0, 0, 0, 0, 0]
    (by simp [ttaVariants, rowBackend, EMOTION_LABELS])).2

/-- C6 (as stated, refuted): on a face whose four variants all score `0` in every class,
`classifyWithTTA` runs the model on 4 variants, not 5, and its final score vector is
`1/7` in every class; the sum of the per-variant softmax rows divided by 5 is `4/35`. -/
theorem tta_not_five_variants :
    (ttaVariants rowBackend [0, 0, 0, 0, 0, 0, 0]).length = 4 ∧
    ttaScores rowBackend EMOTION_LABELS [0, 0, 0, 0, 0, 0, 0]
      = some [1 / 7, 1 / 7, 1 / 7, 1 / 7, 1 / 7, 1 / 7, 1 / 7] ∧
    ((ttaVariants rowBackend [0, 0, 0, 0, 0, 0, 0]).map
      (fun img => (softmax rowBackend (rowBackend.forward img)).getD 0 0)).sum / 5
      = 4 / 35 ∧
    (∀ avgScores, ttaScores rowBackend EMOTION_LABELS [0, 0, 0, 0, 0, 0, 0] = some avgScores →
      avgScores.getD 0 0 ≠
        ((ttaVariants rowBackend [0, 0, 0, 0, 0, 0, 0]).map
          (fun img => (softmax rowBackend (rowBackend.forward img)).getD 0 0)).sum / 5) := by
  have hs : softmax rowBackend ([0, 0, 0, 0, 0, 0, 0] : List ℚ)
      = [1 / 7, 1 / 7, 1 / 7, 1 / 7, 1 / 7, 1 / 7, 1 / 7] := by
    norm_num [softmax, rowBackend]
  have hf : ∀ img : List ℚ, rowBackend.forward img = img := fun _ => rfl
  have h1 : rowBackend.flip [0, 0, 0, 0, 0, 0, 0] = ([0, 0, 0, 0, 0, 0, 0] : List ℚ) := rfl
  have h2 : ∀ a : Int, rowBackend.rotate a [0, 0, 0, 0, 0, 0, 0]
      = ([0, 0, 0, 0, 0, 0, 0] : List ℚ) := fun _ => rfl
  have ht : ttaScores rowBackend EMOTION_LABELS [0, 0, 0, 0, 0, 0, 0]
      = some [1 / 7, 1 / 7, 1 / 7, 1 / 7, 1 / 7, 1 / 7, 1 / 7] := by
    simp only [ttaScores, ttaVariants, List.map, List.cons_append, List.nil_append,
      List.foldlM, hf, h1, h2, hs]
    norm_num [matAdd, EMOTION_LABELS, List.replicate]
  have hsum : ((ttaVariants rowBackend [0, 0, 0, 0, 0, 0, 0]).map
      (fun img => (softmax rowBackend (rowBackend.forward img)).getD 0 0)).sum / 5
      = 4 / 35 := by
    simp only [ttaVariants, List.map, List.cons_append, List.nil_append, hf, h1, h2, hs]
    norm_num
  refine ⟨rfl, ht, hsum, ?_⟩
  intro avgScores h
  rw [ht] at h
  rw [hsum]
  simp only [Option.some.injEq] at h
  subst h
  norm_num

/-- C7 (as stated, refuted): with confidence `1`, arg-max index 3 yields the label
`"Happy"`, not `"Happiness"`, and index 4 yields `"Sad"`, not `"Sadness"`. -/
theorem label_of_index_three_and_four :
    gateLabel EMOTION_LABELS (1 : ℚ) 3 = "Happy" ∧
    gateLabel EMOTION_LABELS (1 : ℚ) 3 ≠ "Happiness" ∧
    gateLabel EMOTION_LABELS (1 : ℚ) 4 = "Sad" ∧
    gateLabel EMOTION_LABELS (1 : ℚ) 4 ≠ "Sadness" := by
  have h : ¬ ((1 : ℚ) < 1 / 5) := by norm_num
  simp only [gateLabel, if_neg h]
  decide

/-- C7 (amended): for every arg-max index `i` and every confidence at or above the
threshold, the classifier's label is the `i`-th entry of the fixed order Anger, Disgust,
Fear, Happy, Sad, Surprise, Neutral when `0 ≤ i < 7` (index 3 yields `"Happy"`, index 4
yields `"Sad"`), and it is `"Unknown"` exactly when `i` falls outside that range. -/
theorem label_of_index {α : Type} [LinearOrderedField α] (maxVal : α) (i : Int)
    (hconf : ¬ maxVal < 1 / 5) :
    (0 ≤ i ∧ i < 7 →
      some (gateLabel EMOTION_LABELS maxVal i)
        = ["Anger", "Disgust", "Fear", "Happy", "Sad", "Surprise", "Neutral"].get? i.toNat) ∧
    gateLabel EMOTION_LABELS maxVal 3 = "Happy" ∧
    gateLabel EMOTION_LABELS maxVal 4 = "Sad" ∧
    (gateLabel EMOTION_LABELS maxVal i = "Unknown" ↔ ¬ (0 ≤ i ∧ i < 7)) := by
  simp only [gateLabel, if_neg hconf]
  refine ⟨?_, by decide, by decide, ?_⟩
  · rintro ⟨h0, h7⟩
    interval_cases i <;> decide
  · by_cases h : 0 ≤ i ∧ i < 7
    · obtain ⟨h0, h7⟩ := h
      interval_cases i <;> decide
    · have hl : labelOf EMOTION_LABELS i = "Unknown" := by
        unfold labelOf
        rw [if_neg]
        exact h
      simp [hl, h]

theorem label_of_index_witness :
    some (gateLabel EMOTION_LABELS (1 / 5 : ℚ) 6)
      = ["Anger", "Disgust", "Fear", "Happy", "Sad", "Surprise", "Neutral"].get? (6 : Int).toNat ∧
    (gateLabel EMOTION_LABELS (1 / 5 : ℚ) 7 = "Unknown" ↔ ¬ ((0 : Int) ≤ 7 ∧ (7 : Int) < 7)) :=
  ⟨(label_of_index (1 / 5 : ℚ) 6 (by norm_num)).1 (by decide),
   (label_of_index (1 / 5 : ℚ) 7 (by norm_num)).2.2.2⟩

/-! ## Theorems: batch evaluation -/

theorem countRows_acc (rows : List (String × String × String)) (acc : Nat × Nat) :
    rows.foldl countRow acc
      = (acc.1 + (matchingRows rows).length, acc.2 + rows.length) := by
  induction rows generalizing acc with
  | nil => simp [matchingRows]
  | cons r rs ih =>
    rw [List.foldl_cons, ih]
    unfold countRow matchingRows
    by_cases h : normalize_label r.2.1 = normalize_label r.2.2
    · simp [h, List.filter_cons]
      omega
    · simp [h, List.filter_cons]
      omega

theorem countRows_eq (rows : List (String × String × String)) :
    countRows rows = ((matchingRows rows).length, rows.length) := by
  unfold countRows
  rw [countRows_acc]
  simp

/-- C8: for every list of result rows the batch accuracy is `correct / total * 100`,
where `total` is the number of rows and `correct` the number of rows whose true and
predicted labels agree after `normalize_label`; with no rows the accuracy is `0` and no
division takes place, and 4 rows with 3 matches give `75`. -/
theorem accuracy_is_percentage_of_matches (rows : List (String × String × String)) :
    countRows rows = ((matchingRows rows).length, rows.length) ∧
    (rows ≠ [] →
      accuracy rows = some (((matchingRows rows).length : ℚ) / (rows.length : ℚ) * 100)) ∧
    (rows = [] → accuracy rows = some 0) ∧
    accuracy rows ≠ none ∧
    (rows.length = 4 → (matchingRows rows).length = 3 → accuracy rows = some 75) := by
  have hc := countRows_eq rows
  have hne : rows ≠ [] →
      accuracy rows = some (((matchingRows rows).length : ℚ) / (rows.length : ℚ) * 100) := by
    intro hne
    have hpos : rows.length > 0 := List.length_pos.mpr hne
    have hq : (rows.length : ℚ) ≠ 0 := by
      exact_mod_cast Nat.pos_iff_ne_zero.mp hpos
    unfold accuracy divDouble
    rw [hc]
    simp only [hpos, if_true, hq, if_false, Option.map_some']
  have hnil : rows = [] → accuracy rows = some 0 := by
    intro he
    subst he
    rfl
  refine ⟨hc, hne, hnil, ?_, ?_⟩
  · by_cases he : rows = []
    · rw [hnil he]; simp
    · rw [hne he]; simp
  · intro h4 h3
    have he : rows ≠ [] := by
      intro he
      rw [he] at h4
      simp at h4
    rw [hne he, h4, h3]
    norm_num

theorem accuracy_is_percentage_of_matches_witness :
    accuracy [("img1.png", "Happiness", "Happy"), ("img2.png", "Sadness", "Sad"),
      ("img3.png", "Fear", "Anger"), ("img4.png", "Neutral", "neutral")] = some 75 :=
  (accuracy_is_percentage_of_matches
    [("img1.png", "Happiness", "Happy"), ("img2.png", "Sadness", "Sad"),
      ("img3.png", "Fear", "Anger"), ("img4.png", "Neutral", "neutral")]).2.2.2.2
    (by decide) (by decide)

theorem alignFace_two_eyes {α : Type} [LinearOrderedField α] {Img : Type}
    (A : AlignBackend Img α) (faceROI : Img) (e0 e1 : Rect)
    (h : A.detectEyes faceROI = [e0, e1]) :
    alignFace A faceROI = A.warp (eyeAngle A e0 e1) faceROI := by
  unfold alignFace
  rw [h]
  simp

/-- C11: for every face crop and every eye-detector result whose number of regions is
not exactly two, `alignFace` returns the input crop unchanged and raises no error (the
rotation, which could raise one, is not invoked). -/
theorem alignFace_unchanged_unless_two_eyes {α : Type} [LinearOrderedField α] {Img : Type}
    (A : AlignBackend Img α) (faceROI : Img) (h : (A.detectEyes faceROI).length ≠ 2) :
    alignFace A faceROI = some faceROI := by
  unfold alignFace
  rw [if_pos h]

theorem alignFace_unchanged_unless_two_eyes_witness :
    alignFace boxBackend [] = some [] ∧
    alignFace boxBackend [⟨3, 4, 20, 20⟩] = some [⟨3, 4, 20, 20⟩] ∧
    alignFace boxBackend [⟨3, 4, 20, 20⟩, ⟨30, 5, 20, 20⟩, ⟨12, 40, 22, 22⟩]
      = some [⟨3, 4, 20, 20⟩, ⟨30, 5, 20, 20⟩, ⟨12, 40, 22, 22⟩] :=
  ⟨alignFace_unchanged_unless_two_eyes boxBackend [] (by decide),
   alignFace_unchanged_unless_two_eyes boxBackend [⟨3, 4, 20, 20⟩] (by decide),
   alignFace_unchanged_unless_two_eyes boxBackend
     [⟨3, 4, 20, 20⟩, ⟨30, 5, 20, 20⟩, ⟨12, 40, 22, 22⟩] (by decide)⟩

theorem floor_half (n : Int) : ⌊((n : ℤ) : ℚ) / 2⌋ = n / 2 := by
  have h := Rat.floor_intCast_div_natCast n 2
  simpa using h

/-- C13: for every crop with at least one row and one column, the region `preprocess`
cuts out is a square of side `min(height, width)` whose offsets are
`floor((width - side) / 2)` and `floor((height - side) / 2)`; it lies inside the crop on
both axes, and on each axis the leading margin is at most the trailing margin and
differs from it by at most 1. -/
theorem cropRoi_centered_square (rows cols : Int) (hr : 1 ≤ rows) (hc : 1 ≤ cols) :
    (cropRoi rows cols).width = min rows cols ∧
    (cropRoi rows cols).height = min rows cols ∧
    1 ≤ (cropRoi rows cols).width ∧
    (cropRoi rows cols).x = ⌊((cols - min rows cols : ℤ) : ℚ) / 2⌋ ∧
    (cropRoi rows cols).y = ⌊((rows - min rows cols : ℤ) : ℚ) / 2⌋ ∧
    0 ≤ (cropRoi rows cols).x ∧
    (cropRoi rows cols).x + (cropRoi rows cols).width ≤ cols ∧
    0 ≤ (cropRoi rows cols).y ∧
    (cropRoi rows cols).y + (cropRoi rows cols).height ≤ rows ∧
    (cropRoi rows cols).x ≤ cols - ((cropRoi rows cols).x + (cropRoi rows cols).width) ∧
    cols - ((cropRoi rows cols).x + (cropRoi rows cols).width) - (cropRoi rows cols).x ≤ 1 ∧
    (cropRoi rows cols).y ≤ rows - ((cropRoi rows cols).y + (cropRoi rows cols).height) ∧
    rows - ((cropRoi rows cols).y + (cropRoi rows cols).height) - (cropRoi rows cols).y ≤ 1 := by
  have hx : 0 ≤ cols - min rows cols := by
    have := min_le_right rows cols
    omega
  have hy : 0 ≤ rows - min rows cols := by
    have := min_le_left rows cols
    omega
  have ex : (cropRoi rows cols).x = (cols - min rows cols) / 2 :=
    Int.tdiv_eq_ediv hx (by decide)
  have ey : (cropRoi rows cols).y = (rows - min rows cols) / 2 :=
    Int.tdiv_eq_ediv hy (by decide)
  have ew : (cropRoi rows cols).width = min rows cols := rfl
  have eh : (cropRoi rows cols).height = min rows cols := rfl
  rw [floor_half, floor_half, ex, ey, ew, eh]
  have hside : 1 ≤ min rows cols := le_min hr hc
  refine ⟨rfl, rfl, hside, rfl, rfl, ?_, ?_, ?_, ?_, ?_, ?_, ?_, ?_⟩ <;> omega

theorem cropRoi_centered_square_witness :
    cropRoi 5 8 = ⟨1, 0, 5, 5⟩ ∧
    (cropRoi 5 8).x ≤ 8 - ((cropRoi 5 8).x + (cropRoi 5 8).width) ∧
    8 - ((cropRoi 5 8).x + (cropRoi 5 8).width) - (cropRoi 5 8).x ≤ 1 :=
  ⟨by decide,
   (cropRoi_centered_square 5 8 (by decide) (by decide)).2.2.2.2.2.2.2.2.2.1,
   (cropRoi_centered_square 5 8 (by decide) (by decide)).2.2.2.2.2.2.2.2.2.2.1⟩

/-! ## Theorems: the realtime loop with failing classifications -/

theorem processFaces_throws (iter : List String → List String) (before : List FaceOutcome)
    (st : DriverState) (face : FaceOutcome) (after : List FaceOutcome)
    (smoothedLabels : List String)
    (hbefore : ∀ g ∈ before, g st.useTTA ≠ none) (hface : face st.useTTA = none) :
    ∃ st', processFaces iter st (before ++ face :: after) smoothedLabels = Except.error st' ∧
      st'.csvRows = st.csvRows ++ frameRows st.frameCount st.useTTA before ∧
      st'.frameCount = st.frameCount ∧ st'.useTTA = st.useTTA ∧ st'.shown = st.shown := by
  induction before generalizing st smoothedLabels with
  | nil =>
    refine ⟨st, ?_, ?_, rfl, rfl, rfl⟩
    · simp [processFaces, hface]
    · simp [frameRows]
  | cons g gs ih =>
    have hg : g st.useTTA ≠ none := hbefore g (List.mem_cons_self _ _)
    obtain ⟨res, hres⟩ := Option.ne_none_iff_exists'.mp hg
    have hgs : ∀ g' ∈ gs, g' (logAndPush iter st res).useTTA ≠ none :=
      fun g' hg' => hbefore g' (List.mem_cons_of_mem _ hg')
    obtain ⟨st', h1, h2, h3, h4, h5⟩ :=
      ih (logAndPush iter st res) (smoothedLabels ++ [(faceStep iter st.predictionBuffer res).2])
        hgs hface
    refine ⟨st', ?_, ?_, h3, h4, h5⟩
    · rw [List.cons_append]
      simp only [processFaces, hres]
      exact h1
    · rw [h2]
      simp [frameRows, logAndPush, hres]

/-- C12 (amended): when the classification of one face throws during a frame, `main`
returns `-1`: the log holds the rows it held before the frame and one row for each face
of the frame that came before the failing one, and nothing else; the faces after it and
all later frames are not processed, the frame is not shown and not counted. -/
theorem forward_failure_aborts_run (iter : List String → List String) (st : DriverState)
    (before : List FaceOutcome) (face : FaceOutcome) (after : List FaceOutcome) (key : Int)
    (later : List Frame)
    (hbefore : ∀ g ∈ before, g st.useTTA ≠ none) (hface : face st.useTTA = none) :
    (mainLoop iter st (⟨before ++ face :: after, key⟩ :: later)).1 = -1 ∧
    (mainLoop iter st (⟨before ++ face :: after, key⟩ :: later)).2.csvRows
      = st.csvRows ++ frameRows st.frameCount st.useTTA before ∧
    (mainLoop iter st (⟨before ++ face :: after, key⟩ :: later)).2.frameCount = st.frameCount ∧
    (mainLoop iter st (⟨before ++ face :: after, key⟩ :: later)).2.shown = st.shown := by
  obtain ⟨st', h1, h2, h3, _, h5⟩ :=
    processFaces_throws iter before st face after [] hbefore hface
  have hm : mainLoop iter st (⟨before ++ face :: after, key⟩ :: later) = (-1, st') := by
    simp only [mainLoop, h1]
  rw [hm]
  exact ⟨rfl, h2, h3, h5⟩

theorem forward_failure_aborts_run_witness :
    (mainLoop firstSeenOrder initialState
      [⟨[classifiedAs "Happy" 1] ++ classifierThrows :: [classifiedAs "Sad" 1], -1⟩,
       ⟨[classifiedAs "Happy" 1], -1⟩]).1 = -1 :=
  (forward_failure_aborts_run firstSeenOrder initialState [classifiedAs "Happy" 1]
    classifierThrows [classifiedAs "Sad" 1] (-1) [⟨[classifiedAs "Happy" 1], -1⟩]
    (by simp [classifiedAs]) rfl).1

/-- C12 (as stated, refuted): a frame with the faces `Happy`, a face whose forward call
throws, and `Sad`, followed by a frame with one face `Happy`.  `main` returns `-1` with
the single row of the first face in the log and no frame counted; the run in which the
failing face is skipped returns `0` with three rows and two frames counted. -/
theorem forward_failure_not_skipped :
    (mainLoop firstSeenOrder initialState
      [⟨[classifiedAs "Happy" 1, classifierThrows, classifiedAs "Sad" 1], -1⟩,
       ⟨[classifiedAs "Happy" 1], -1⟩]).1 = -1 ∧
    (mainLoop firstSeenOrder initialState
      [⟨[classifiedAs "Happy" 1, classifierThrows, classifiedAs "Sad" 1], -1⟩,
       ⟨[classifiedAs "Happy" 1], -1⟩]).2.csvRows = [(0, "Happy", 1, false)] ∧
    (mainLoop firstSeenOrder initialState
      [⟨[classifiedAs "Happy" 1, classifierThrows, classifiedAs "Sad" 1], -1⟩,
       ⟨[classifiedAs "Happy" 1], -1⟩]).2.frameCount = 0 ∧
    (mainLoop firstSeenOrder initialState
      ([⟨[classifiedAs "Happy" 1, classifierThrows, classifiedAs "Sad" 1], -1⟩,
        ⟨[classifiedAs "Happy" 1], -1⟩].map (skipFailedFaces false))).1 = 0 ∧
    (mainLoop firstSeenOrder initialState
      ([⟨[classifiedAs "Happy" 1, classifierThrows, classifiedAs "Sad" 1], -1⟩,
        ⟨[classifiedAs "Happy" 1], -1⟩].map (skipFailedFaces false))).2.csvRows
      = [(0, "Happy", 1, false), (0, "Sad", 1, false), (1, "Happy", 1, false)] ∧
    (mainLoop firstSeenOrder initialState
      ([⟨[classifiedAs "Happy" 1, classifierThrows, classifiedAs "Sad" 1], -1⟩,
        ⟨[classifiedAs "Happy" 1], -1⟩].map (skipFailedFaces false))).2.frameCount = 2 := by
  have g1 : driverGate ("Sad", 1) = "Sad" := by norm_num [driverGate]
  have g2 : driverGate ("Happy", 1) = "Happy" := by norm_num [driverGate]
  simp [mainLoop, processFaces, logAndPush, endOfFrame, skipFailedFaces, classifiedAs,
    classifierThrows, initialState, g1, g2]
end CVFinal
